import Mathlib

/-!
Verification of the viseme-timeline / talking-avatar driver of the
Virtusphere event app, together with its avatar-URL utilities.

The definitions below are a shallow embedding of the TypeScript source:

* the timeline builder `textToVisemeTimeline`, the chunker implementing the
  regex split on runs, and the viseme mapper `pickVisemeForChunk`
  (component `EventChatbot`, talking-head section);
* the morph-target writer `setMorph`, the emotion overlay
  `applyEmotionOverlay`, and the body of the per-entry timed "apply"
  callback (`applyEvent`) of `speakText`;
* an event-loop model of `speakText`'s timer bookkeeping (submission,
  `onstart` scheduling, timer firing, `onend`);
* `isValidAvatarUrl`, `buildAvatarUrl`, `extractAvatarId` from
  `avatarUtils.ts`.

Strings are modelled as `List Char` where character-level scanning is
needed; JavaScript numbers are modelled by `ℚ` (all computations the
claims depend on are exact in binary floating point as well: they are
sums, products and halving of small integers), array indices by `ℕ`,
millisecond offsets by `ℤ`.  `Math.round` on the non-negative values
arising here agrees with Mathlib's `round` (round half towards +∞).
-/

/-- JavaScript `\s` (the whitespace class used by the chunking regex,
`trim`, and the fallback `split`), restricted to the characters that can
realistically occur; claims only exercise `' '`. -/
def isWs (c : Char) : Bool :=
  c = ' ' || c = '\t' || c = '\n' || c = '\r' || c = '\x0b' || c = '\x0c' ||
  c = ' ' || c = '﻿'

/-- The vowel class `[aeiouy]` of the chunking regex, case-insensitive. -/
def isVowel (c : Char) : Bool :=
  let l := c.toLower
  l = 'a' || l = 'e' || l = 'i' || l = 'o' || l = 'u' || l = 'y'

/-- The chunker: the loop `while ((m = re.exec(text)) !== null)` with
`re = /[aeiouy]+|[^aeiouy\s]+/gi` partitions the text into maximal runs of
vowel-class characters and maximal runs of non-vowel non-whitespace
characters, skipping whitespace.  This recursion computes exactly those
maximal runs: a character is merged into the following run when the next
character is non-whitespace and of the same class. -/
def chunksOf : List Char → List (List Char)
  | [] => []
  | c :: rest =>
    if isWs c then chunksOf rest
    else
      match rest, chunksOf rest with
      | d :: _, ch :: chs =>
        if !isWs d && (isVowel c == isVowel d) then (c :: ch) :: chs
        else [c] :: ch :: chs
      | _, cs => [c] :: cs

/-- JavaScript `text.split(/\s+/)`: substrings between maximal whitespace
runs, including the empty substrings produced at the ends (`""` splits to
`[""]`, `"   "` splits to `["", ""]`). -/
def splitWs : List Char → List (List Char)
  | [] => [[]]
  | c :: rest =>
    let ss := splitWs rest
    if isWs c then
      match rest with
      | d :: _ => if isWs d then ss else [] :: ss
      | [] => [] :: ss
    else
      match ss with
      | s :: ss' => (c :: s) :: ss'
      | [] => [[c]]

/-- JavaScript `String.prototype.trim` (both ends, `\s`). -/
def trimWs (l : List Char) : List Char :=
  ((l.dropWhile isWs).reverse.dropWhile isWs).reverse

/-- The `VISIME_MAP` lookup `VISIME_MAP[c] || VISIME_MAP.default` for a
single lower-cased character `c`. -/
def visemeMap (c : Char) : String :=
  if c = 'a' then "mouthOpen"
  else if c = 'e' then "mouthSmile"
  else if c = 'i' then "mouthSmile"
  else if c = 'o' then "mouthFunnel"
  else if c = 'u' then "mouthPucker"
  else if c = 'm' then "mouthClosed"
  else if c = 'p' then "mouthPucker"
  else if c = 'b' then "mouthPucker"
  else if c = 't' then "mouthTense"
  else if c = 'd' then "mouthTense"
  else if c = 's' then "mouthNarrow"
  else "mouthOpen"

/-- `pickVisemeForChunk`: `chunk.trim().charAt(0).toLowerCase()` looked up
in `VISIME_MAP` with fallback to the default shape.  `charAt(0)` of an
empty trimmed chunk yields `""`, whose lookup is the default. -/
def pickVisemeForChunk (chunk : List Char) : String :=
  match trimWs chunk with
  | [] => "mouthOpen"
  | c :: _ => visemeMap c.toLower

/-- One element of the `timeline` array built by `textToVisemeTimeline`. -/
structure TimelineEntry where
  start : ℤ
  duration : ℤ
  viseme : String
  chunk : List Char
deriving DecidableEq, Repr

/-- The `chunks.map` loop of `textToVisemeTimeline` together with the
running cumulative offset `t`: each chunk receives
`max(40, Math.round((chunk.length / totalChars) * estDuration))`
milliseconds starting at the current `t`; returns the entry list and the
final `t`. -/
def buildEntries (totalChars est : ℚ) : List (List Char) → ℤ → List TimelineEntry × ℤ
  | [], t => ([], t)
  | ch :: rest, t =>
    let dur : ℤ := max 40 (round ((ch.length : ℚ) / totalChars * est))
    let tail := buildEntries totalChars est rest (t + dur)
    (⟨t, dur, pickVisemeForChunk ch, ch⟩ :: tail.1, tail.2)

/-- `Math.max(200, (text.length * baseMsPerChar) / utteranceRate)` with
`baseMsPerChar = 80`. -/
def estDuration (text : List Char) (utteranceRate : ℚ) : ℚ :=
  max 200 ((text.length * 80 : ℚ) / utteranceRate)

/-- The chunk list used by the timeline: the regex chunks, or, when those
are empty, the whitespace-split fallback
(`if (chunks.length === 0) text.split(/\s+/).forEach(...)`). -/
def timelineChunks (text : List Char) : List (List Char) :=
  if (chunksOf text).isEmpty then splitWs text else chunksOf text

/-- `chunks.reduce((s, c) => s + c.length, 0) || 1`. -/
def timelineTotalChars (text : List Char) : ℚ :=
  let n := ((timelineChunks text).map List.length).sum
  if n = 0 then 1 else (n : ℚ)

/-- `textToVisemeTimeline(text, utteranceRate)`: returns the pair of the
`timeline` array and the total `duration` (the final cumulative `t`). -/
def textToVisemeTimeline (text : List Char) (utteranceRate : ℚ) :
    List TimelineEntry × ℤ :=
  buildEntries (timelineTotalChars text) (estDuration text utteranceRate)
    (timelineChunks text) 0

/-- Master invariant of the `chunks.map` loop: durations are clamped to at
least 40 ms, the first entry starts at the running offset, the final
offset is the initial offset plus the sum of the durations, and
consecutive entries tile (each starts where the previous one ends). -/
theorem buildEntries_spec (totalChars est : ℚ) :
    ∀ (chunks : List (List Char)) (t0 : ℤ),
      (∀ e ∈ (buildEntries totalChars est chunks t0).1, 40 ≤ e.duration) ∧
      (buildEntries totalChars est chunks t0).2 =
        t0 + ((buildEntries totalChars est chunks t0).1.map
                TimelineEntry.duration).sum ∧
      (∀ e, (buildEntries totalChars est chunks t0).1.head? = some e →
        e.start = t0) ∧
      List.Chain'
        (fun a b => a.start + a.duration = b.start ∧ a.start ≤ b.start)
        (buildEntries totalChars est chunks t0).1 := by
  intro chunks
  induction chunks with
  | nil => intro t0; refine ⟨by simp [buildEntries], by simp [buildEntries], ?_, ?_⟩ <;>
      simp [buildEntries]
  | cons ch rest ih =>
    intro t0
    set dur : ℤ := max 40 (round ((ch.length : ℚ) / totalChars * est)) with hdur
    obtain ⟨ihDur, ihSum, ihHead, ihChain⟩ := ih (t0 + dur)
    have hd40 : (40 : ℤ) ≤ dur := le_max_left _ _
    have hbe : buildEntries totalChars est (ch :: rest) t0 =
        (⟨t0, dur, pickVisemeForChunk ch, ch⟩ ::
          (buildEntries totalChars est rest (t0 + dur)).1,
         (buildEntries totalChars est rest (t0 + dur)).2) := by
      simp [buildEntries, hdur]
    refine ⟨?_, ?_, ?_, ?_⟩
    · intro e he
      rw [hbe] at he
      rcases List.mem_cons.mp he with h | h
      · subst h; exact hd40
      · exact ihDur e h
    · rw [hbe]; simp only [List.map_cons, List.sum_cons]
      rw [ihSum]; ring
    · intro e he
      rw [hbe] at he
      simp only [List.head?_cons, Option.some_inj] at he
      subst he; rfl
    · rw [hbe]
      refine List.chain'_cons'.mpr ⟨?_, ihChain⟩
      intro b hb
      have hbstart : b.start = t0 + dur := by
        cases hhead : (buildEntries totalChars est rest (t0 + dur)).1.head? with
        | none => rw [hhead] at hb; cases hb
        | some x =>
          rw [hhead] at hb
          cases hb
          exact ihHead b hhead
      constructor
      · simpa using hbstart.symm
      · rw [hbstart]; exact le_add_of_nonneg_right (by omega)

/-- Concrete evaluation: the regex chunking of `"hi"`. -/
theorem chunksOf_hi : chunksOf "hi".data = [['h'], ['i']] := by decide

theorem timelineChunks_hi : timelineChunks "hi".data = [['h'], ['i']] := by
  decide

theorem timelineChunks_empty : timelineChunks "".data = [[]] := by decide

theorem timelineChunks_spaces : timelineChunks "   ".data = [[], []] := by
  decide

theorem pickVisemeForChunk_nil : pickVisemeForChunk ([] : List Char) = "mouthOpen" := by
  decide

/-- Full evaluation of the timeline on the empty string: the fallback
split yields the single empty chunk, clamped to 40 ms. -/
theorem ttvt_empty : textToVisemeTimeline "".data 1 =
    ([⟨0, 40, "mouthOpen", []⟩], 40) := by
  have htc : timelineTotalChars "".data = 1 := by
    rw [timelineTotalChars, timelineChunks_empty]; norm_num
  have hest : estDuration "".data 1 = 200 := by
    rw [estDuration, show "".data.length = 0 from by decide]; norm_num
  rw [textToVisemeTimeline, timelineChunks_empty, htc, hest]
  simp [buildEntries, pickVisemeForChunk_nil]

/-- Full evaluation of the timeline on `"   "`: the fallback split yields
two empty chunks, each clamped to 40 ms. -/
theorem ttvt_spaces : textToVisemeTimeline "   ".data 1 =
    ([⟨0, 40, "mouthOpen", []⟩, ⟨40, 40, "mouthOpen", []⟩], 80) := by
  have htc : timelineTotalChars "   ".data = 1 := by
    rw [timelineTotalChars, timelineChunks_spaces]; norm_num
  have hest : estDuration "   ".data 1 = 240 := by
    rw [estDuration, show "   ".data.length = 3 from by decide]; norm_num
  rw [textToVisemeTimeline, timelineChunks_spaces, htc, hest]
  simp [buildEntries, pickVisemeForChunk_nil]

/-- Full evaluation of the timeline on `"hi"` at rate 1. -/
theorem ttvt_hi : textToVisemeTimeline "hi".data 1 =
    ([⟨0, 100, "mouthOpen", ['h']⟩, ⟨100, 100, "mouthSmile", ['i']⟩], 200) := by
  have hpickh : pickVisemeForChunk ['h'] = "mouthOpen" := by decide
  have hpicki : pickVisemeForChunk ['i'] = "mouthSmile" := by decide
  have htc : timelineTotalChars "hi".data = 2 := by
    rw [timelineTotalChars, timelineChunks_hi]; norm_num
  have hest : estDuration "hi".data 1 = 200 := by
    rw [estDuration, show "hi".data.length = 2 from by decide]; norm_num
  have h1 : ((['h'] : List Char).length : ℚ) / 2 * 200 = 100 := by norm_num
  have h2 : ((['i'] : List Char).length : ℚ) / 2 * 200 = 100 := by norm_num
  have hr : max (40 : ℤ) (round (100 : ℚ)) = 100 := by norm_num [round_eq]
  rw [textToVisemeTimeline, timelineChunks_hi, htc, hest]
  simp only [buildEntries, h1, h2, hr, hpickh, hpicki, zero_add]
  norm_num

/-- C1 is false on the code: for the whitespace-only input `"   "` the
timeline has two entries and total duration 80 ms (and for `""` one entry
and 40 ms), not zero entries and zero duration: the fallback
`text.split(/\s+/)` produces empty-string chunks, each clamped to 40 ms. -/
theorem c1_counterexample :
    (textToVisemeTimeline "   ".data 1).1.length = 2 ∧
    (textToVisemeTimeline "   ".data 1).2 = 80 ∧
    (textToVisemeTimeline "".data 1).1.length = 1 ∧
    (textToVisemeTimeline "".data 1).2 = 40 := by
  rw [ttvt_spaces, ttvt_empty]
  exact ⟨rfl, rfl, rfl, rfl⟩

/-- C1 amended: for empty input the timeline builder returns one entry
(the empty fallback chunk, 40 ms, default viseme) and total duration
40 ms; for the whitespace-only input `"   "` it returns two such entries
and total duration 80 ms. -/
theorem c1_amended :
    textToVisemeTimeline "".data 1 = ([⟨0, 40, "mouthOpen", []⟩], 40) ∧
    textToVisemeTimeline "   ".data 1 =
      ([⟨0, 40, "mouthOpen", []⟩, ⟨40, 40, "mouthOpen", []⟩], 80) :=
  ⟨ttvt_empty, ttvt_spaces⟩

/-- C2: for non-empty text and positive rate, every entry's duration is at
least 40 ms, the first entry starts at 0, starts are non-decreasing, and
each entry starts exactly where the previous one ends (contiguous
partition: no gaps, no overlaps). -/
theorem c2_timeline_invariants (text : List Char) (rate : ℚ)
    (_htext : text ≠ []) (_hrate : 0 < rate) :
    (∀ e ∈ (textToVisemeTimeline text rate).1, 40 ≤ e.duration) ∧
    (∀ e, (textToVisemeTimeline text rate).1.head? = some e → e.start = 0) ∧
    List.Chain' (fun a b => a.start ≤ b.start)
      (textToVisemeTimeline text rate).1 ∧
    List.Chain' (fun a b => a.start + a.duration = b.start)
      (textToVisemeTimeline text rate).1 := by
  obtain ⟨h1, _, h3, h4⟩ := buildEntries_spec (timelineTotalChars text)
    (estDuration text rate) (timelineChunks text) 0
  exact ⟨h1, h3, h4.imp fun a b hab => hab.2, h4.imp fun a b hab => hab.1⟩

theorem c2_witness :
    ("hi".data ≠ [] ∧ (0 : ℚ) < 1) ∧
    ((∀ e ∈ (textToVisemeTimeline "hi".data 1).1, 40 ≤ e.duration) ∧
     (∀ e, (textToVisemeTimeline "hi".data 1).1.head? = some e → e.start = 0) ∧
     List.Chain' (fun a b => a.start ≤ b.start)
       (textToVisemeTimeline "hi".data 1).1 ∧
     List.Chain' (fun a b => a.start + a.duration = b.start)
       (textToVisemeTimeline "hi".data 1).1) :=
  ⟨⟨by decide, by norm_num⟩,
    c2_timeline_invariants "hi".data 1 (by decide) (by norm_num)⟩

/-- C3: the total duration returned by the timeline builder equals the sum
of the durations of the returned entries. -/
theorem c3_total_duration (text : List Char) (rate : ℚ) (_hrate : 0 < rate) :
    (textToVisemeTimeline text rate).2 =
      ((textToVisemeTimeline text rate).1.map TimelineEntry.duration).sum := by
  have h := (buildEntries_spec (timelineTotalChars text)
    (estDuration text rate) (timelineChunks text) 0).2.1
  simpa using h

theorem c3_witness :
    (0 : ℚ) < 1 ∧
    (textToVisemeTimeline "hi".data 1).2 =
      ((textToVisemeTimeline "hi".data 1).1.map TimelineEntry.duration).sum :=
  ⟨by norm_num, c3_total_duration "hi".data 1 (by norm_num)⟩

/-- C4: the complete `"hi"` scenario: chunks `["h", "i"]`, estimated
duration 200 ms, a 50/50 split of 100 ms per chunk, the exact timeline
entries with visemes `mouthOpen` (default for `h`) and `mouthSmile`
(for `i`), and total duration 200 ms. -/
theorem c4_hi_scenario :
    chunksOf "hi".data = [['h'], ['i']] ∧
    estDuration "hi".data 1 = 200 ∧
    textToVisemeTimeline "hi".data 1 =
      ([⟨0, 100, "mouthOpen", ['h']⟩, ⟨100, 100, "mouthSmile", ['i']⟩], 200) := by
  refine ⟨chunksOf_hi, ?_, ttvt_hi⟩
  rw [estDuration, show "hi".data.length = 2 from by decide]; norm_num

/-- C5 is false as stated: `pickVisemeForChunk` trims the chunk before
taking its first character, so it is not a function of the chunk's first
lower-cased character: `" e"` and `" x"` share the first character `' '`
(which the claimed table sends to the default `"mouthOpen"`), yet the code
returns `"mouthSmile"` for `" e"`. -/
theorem c5_counterexample :
    (" e".data.head? = some ' ' ∧ " x".data.head? = some ' ') ∧
    pickVisemeForChunk " e".data ≠ pickVisemeForChunk " x".data ∧
    pickVisemeForChunk " e".data = "mouthSmile" := by
  refine ⟨⟨rfl, rfl⟩, ?_, by decide⟩
  decide

/-- The fixed letter table of §4.2 of the specification, as written there:
a/e/i/o/u/m/p/b/t/d/s to their shapes, everything else to the default. -/
def specVisemeTable : List (Char × String) :=
  [('a', "mouthOpen"), ('e', "mouthSmile"), ('i', "mouthSmile"),
   ('o', "mouthFunnel"), ('u', "mouthPucker"), ('m', "mouthClosed"),
   ('p', "mouthPucker"), ('b', "mouthPucker"), ('t', "mouthTense"),
   ('d', "mouthTense"), ('s', "mouthNarrow")]

/-- First-match lookup in an association table of characters. -/
def specLookup : List (Char × String) → Char → Option String
  | [], _ => none
  | (k, v) :: rest, c => if c = k then some v else specLookup rest c

/-- C5 amended: `pickVisemeForChunk` is a pure function of the first
lower-cased character of the *trimmed* chunk, given by the fixed table
with default `"mouthOpen"` (also used when trimming leaves nothing); the
three concrete examples of the claim hold as stated. -/
theorem c5_amended :
    (∀ chunk : List Char, pickVisemeForChunk chunk =
      match trimWs chunk with
      | [] => "mouthOpen"
      | c :: _ => (specLookup specVisemeTable c.toLower).getD "mouthOpen") ∧
    pickVisemeForChunk "Bob".data = "mouthPucker" ∧
    pickVisemeForChunk "Xyz".data = "mouthOpen" ∧
    pickVisemeForChunk "dog".data = "mouthTense" := by
  refine ⟨?_, by decide, by decide, by decide⟩
  intro chunk
  rw [pickVisemeForChunk]
  cases trimWs chunk with
  | nil => rfl
  | cons c rest =>
    show visemeMap c.toLower =
      (specLookup specVisemeTable c.toLower).getD "mouthOpen"
    generalize c.toLower = d
    by_cases h1 : d = 'a'
    · subst h1; rfl
    by_cases h2 : d = 'e'
    · subst h2; rfl
    by_cases h3 : d = 'i'
    · subst h3; rfl
    by_cases h4 : d = 'o'
    · subst h4; rfl
    by_cases h5 : d = 'u'
    · subst h5; rfl
    by_cases h6 : d = 'm'
    · subst h6; rfl
    by_cases h7 : d = 'p'
    · subst h7; rfl
    by_cases h8 : d = 'b'
    · subst h8; rfl
    by_cases h9 : d = 't'
    · subst h9; rfl
    by_cases h10 : d = 'd'
    · subst h10; rfl
    by_cases h11 : d = 's'
    · subst h11; rfl
    simp only [visemeMap, specLookup, specVisemeTable, if_neg h1, if_neg h2,
      if_neg h3, if_neg h4, if_neg h5, if_neg h6, if_neg h7, if_neg h8,
      if_neg h9, if_neg h10, if_neg h11]
    rfl

/-!
The renderable model: each mesh carries a morph-target dictionary
(shape name to influence index, `mesh.morphTargetDictionary`) and an
influence array (`mesh.morphTargetInfluences`).
-/

/-- One renderable mesh collected by the model-load effect. -/
structure Mesh where
  morphTargetDictionary : List (String × ℕ)
  morphTargetInfluences : List ℚ
deriving DecidableEq, Repr

/-- `dict[name]`: the index of a shape name in a morph dictionary
(`undefined`, i.e. `none`, when absent). -/
def dictLookup (d : List (String × ℕ)) (name : String) : Option ℕ :=
  (d.find? fun p => p.1 = name).map Prod.snd

/-- The body of `setMorph` for one mesh: look the name up in the mesh's
dictionary; if present (`i !== undefined`), write
`mesh.morphTargetInfluences[i] = value`; otherwise leave the mesh
untouched. -/
def setMorphMesh (name : String) (value : ℚ) (m : Mesh) : Mesh :=
  match dictLookup m.morphTargetDictionary name with
  | some i => { m with morphTargetInfluences := m.morphTargetInfluences.set i value }
  | none => m

/-- `setMorph(name, value)`: the `forEach` over all collected meshes. -/
def setMorph (meshes : List Mesh) (name : String) (value : ℚ) : List Mesh :=
  meshes.map (setMorphMesh name value)

/-- The `EMOTION_BASE` table: overlay entries per emotion label, in object
literal insertion order; unknown labels (incl. `"neutral"`) give the empty
overlay (`EMOTION_BASE[emotion] || {}` yields `{}` for unknown labels). -/
def emotionBase (emotion : String) : List (String × ℚ) :=
  if emotion = "joy" then [("mouthSmile", 3/5), ("cheekPuff", 1/5)]
  else if emotion = "sadness" then [("mouthFrown", 1/2)]
  else if emotion = "anger" then [("browDownLeft", 3/5), ("browDownRight", 3/5)]
  else if emotion = "surprise" then [("jawOpen", 2/5)]
  else []

/-- One overlay write for one mesh:
`mesh.morphTargetInfluences[i] = Math.max(mesh.morphTargetInfluences[i] || 0, val)`
when the shape is present, no-op otherwise. -/
def overlayMesh (shape : String) (val : ℚ) (m : Mesh) : Mesh :=
  match dictLookup m.morphTargetDictionary shape with
  | some i =>
    let old := m.morphTargetInfluences.getD i 0
    { m with morphTargetInfluences := m.morphTargetInfluences.set i (max old val) }
  | none => m

/-- `applyEmotionOverlay(emotion)`: for each overlay entry (outer loop),
write the floored weight into every mesh (inner loop). -/
def applyEmotionOverlay (meshes : List Mesh) (emotion : String) : List Mesh :=
  (emotionBase emotion).foldl
    (fun ms sv => ms.map (overlayMesh sv.1 sv.2)) meshes

/-- The list of mouth shapes zeroed/reset by `speakText`'s callbacks. -/
def MOUTH_SHAPES : List String :=
  ["mouthOpen", "jawOpen", "mouthFunnel", "mouthPucker", "mouthSmile",
   "mouthFrown", "mouthClosed", "mouthNarrow", "mouthTense"]

/-- `0.5 + Math.random() * 0.45` where `r` stands for the `Math.random()`
draw in `[0, 1)`. -/
def intensityOf (r : ℚ) : ℚ := 1/2 + r * (9/20)

/-- The body of the per-entry "apply" callback scheduled at `entry.start`:
zero all mouth shapes, set the entry's viseme to the randomized intensity,
re-apply the emotion overlay, and raise `jawOpen` to
`Math.min(0.6, intensity * 0.9)` when the viseme is `mouthOpen` or
`mouthFunnel`. -/
def applyEvent (meshes : List Mesh) (viseme emotion : String) (r : ℚ) :
    List Mesh :=
  let ms := MOUTH_SHAPES.foldl (fun ms s => setMorph ms s 0) meshes
  let ms := setMorph ms viseme (intensityOf r)
  let ms := applyEmotionOverlay ms emotion
  if viseme = "mouthOpen" ∨ viseme = "mouthFunnel" then
    setMorph ms "jawOpen" (min (3/5) (intensityOf r * (9/10)))
  else ms

/-- Reading a shape's weight from one mesh, the way the code reads it
(dictionary index, then influence value with `|| 0`). -/
def getMorph (m : Mesh) (name : String) : Option ℚ :=
  (dictLookup m.morphTargetDictionary name).map
    fun i => m.morphTargetInfluences.getD i 0

/-- Well-formed mesh: every dictionary index is inside the influence
array, and distinct dictionary entries have distinct indices. -/
def WFmesh (m : Mesh) : Prop :=
  (∀ p ∈ m.morphTargetDictionary, p.2 < m.morphTargetInfluences.length) ∧
  (m.morphTargetDictionary.map Prod.snd).Nodup

instance : DecidablePred WFmesh := fun m => by
  unfold WFmesh; infer_instance

/-- C9: when a shape name has no corresponding morph target on any mesh,
`setMorph` is a silent no-op: it writes nothing, changes no influence, and
(being a total function) cannot throw.  Only names present in a mesh's
dictionary are ever written. -/
theorem c9_setMorph_missing_noop (meshes : List Mesh) (name : String)
    (value : ℚ)
    (habsent : ∀ m ∈ meshes, dictLookup m.morphTargetDictionary name = none) :
    setMorph meshes name value = meshes := by
  unfold setMorph
  conv_rhs => rw [← List.map_id meshes]
  refine List.map_congr_left ?_
  intro m hm
  unfold setMorphMesh
  rw [habsent m hm]
  rfl

theorem c9_witness :
    (∀ m ∈ [Mesh.mk [("mouthSmile", 0)] [1/4]],
      dictLookup m.morphTargetDictionary "mouthOpen" = none) ∧
    setMorph [Mesh.mk [("mouthSmile", 0)] [1/4]] "mouthOpen" (7/10) =
      [Mesh.mk [("mouthSmile", 0)] [1/4]] :=
  ⟨by decide,
    c9_setMorph_missing_noop [Mesh.mk [("mouthSmile", 0)] [1/4]]
      "mouthOpen" (7/10) (by decide)⟩

/-- The per-mesh composition of the "apply" callback's zeroing loop. -/
def zeroMouthMesh (m : Mesh) : Mesh :=
  MOUTH_SHAPES.foldl (fun m s => setMorphMesh s 0 m) m

/-- The per-mesh composition of the emotion-overlay loop. -/
def overlayFoldMesh (emotion : String) (m : Mesh) : Mesh :=
  (emotionBase emotion).foldl (fun m sv => overlayMesh sv.1 sv.2 m) m

/-- The "apply" callback restricted to a single mesh; `applyEvent` is the
pointwise application of this to every mesh (`applyEvent_eq_map`). -/
def applyEventMesh (viseme emotion : String) (r : ℚ) (m : Mesh) : Mesh :=
  let m3 := overlayFoldMesh emotion
    (setMorphMesh viseme (intensityOf r) (zeroMouthMesh m))
  if viseme = "mouthOpen" ∨ viseme = "mouthFunnel" then
    setMorphMesh "jawOpen" (min (3/5) (intensityOf r * (9/10))) m3
  else m3

/-- The overlay weight the `EMOTION_BASE` table assigns to a shape for an
emotion (0 when the overlay does not mention the shape). -/
def overlayWeight (emotion name : String) : ℚ :=
  match (emotionBase emotion).find? (fun sv => sv.1 = name) with
  | some sv => sv.2
  | none => 0

/-- The set of mouth shapes `pickVisemeForChunk` can produce. -/
def visemeNames : List String :=
  ["mouthOpen", "mouthSmile", "mouthFunnel", "mouthPucker", "mouthClosed",
   "mouthTense", "mouthNarrow"]

theorem morphTargetDictionary_setMorphMesh (name : String) (v : ℚ) (m : Mesh) :
    (setMorphMesh name v m).morphTargetDictionary = m.morphTargetDictionary := by
  unfold setMorphMesh
  cases dictLookup m.morphTargetDictionary name <;> rfl

theorem morphTargetDictionary_overlayMesh (shape : String) (val : ℚ) (m : Mesh) :
    (overlayMesh shape val m).morphTargetDictionary = m.morphTargetDictionary := by
  unfold overlayMesh
  cases dictLookup m.morphTargetDictionary shape <;> rfl

theorem length_setMorphMesh (name : String) (v : ℚ) (m : Mesh) :
    (setMorphMesh name v m).morphTargetInfluences.length =
      m.morphTargetInfluences.length := by
  unfold setMorphMesh
  cases dictLookup m.morphTargetDictionary name <;> simp

theorem length_overlayMesh (shape : String) (val : ℚ) (m : Mesh) :
    (overlayMesh shape val m).morphTargetInfluences.length =
      m.morphTargetInfluences.length := by
  unfold overlayMesh
  cases dictLookup m.morphTargetDictionary shape <;> simp

theorem WF_setMorphMesh (name : String) (v : ℚ) (m : Mesh) (h : WFmesh m) :
    WFmesh (setMorphMesh name v m) := by
  obtain ⟨h1, h2⟩ := h
  refine ⟨?_, ?_⟩
  · rw [morphTargetDictionary_setMorphMesh, length_setMorphMesh]
    exact h1
  · rw [morphTargetDictionary_setMorphMesh]
    exact h2

theorem WF_overlayMesh (shape : String) (val : ℚ) (m : Mesh) (h : WFmesh m) :
    WFmesh (overlayMesh shape val m) := by
  obtain ⟨h1, h2⟩ := h
  refine ⟨?_, ?_⟩
  · rw [morphTargetDictionary_overlayMesh, length_overlayMesh]
    exact h1
  · rw [morphTargetDictionary_overlayMesh]
    exact h2

/-- Entries found by `dictLookup` are in the dictionary with the queried
name. -/
theorem dictLookup_some (d : List (String × ℕ)) (n : String) (i : ℕ)
    (h : dictLookup d n = some i) :
    ∃ p ∈ d, p.1 = n ∧ p.2 = i := by
  unfold dictLookup at h
  cases hf : d.find? (fun p => p.1 = n) with
  | none => rw [hf] at h; cases h
  | some p =>
    rw [hf] at h
    refine ⟨p, List.mem_of_find?_eq_some hf, ?_, by simpa using h⟩
    have := List.find?_some hf
    simpa using this

/-- With index-distinct dictionaries, distinct names have distinct
indices. -/
theorem dictLookup_index_ne (d : List (String × ℕ)) (hnd : (d.map Prod.snd).Nodup)
    {n n' : String} {i i' : ℕ} (h : dictLookup d n = some i)
    (h' : dictLookup d n' = some i') (hne : n ≠ n') : i ≠ i' := by
  obtain ⟨p, hp, hp1, hp2⟩ := dictLookup_some d n i h
  obtain ⟨q, hq, hq1, hq2⟩ := dictLookup_some d n' i' h'
  intro hii
  apply hne
  have hpq : p = q := by
    apply List.inj_on_of_nodup_map hnd hp hq
    rw [hp2, hq2, hii]
  rw [← hp1, ← hq1, hpq]

theorem getMorph_isSome (m : Mesh) (n : String) :
    (getMorph m n).isSome = (dictLookup m.morphTargetDictionary n).isSome := by
  unfold getMorph
  cases dictLookup m.morphTargetDictionary n <;> rfl

/-- Writing a present shape, then reading it back, gives the written
value. -/
theorem getMorph_set_self (name : String) (v : ℚ) (m : Mesh) (hwf : WFmesh m)
    (hpres : (dictLookup m.morphTargetDictionary name).isSome) :
    getMorph (setMorphMesh name v m) name = some v := by
  obtain ⟨i, hi⟩ := Option.isSome_iff_exists.mp hpres
  obtain ⟨p, hp, _, hp2⟩ := dictLookup_some _ _ _ hi
  have hlen : i < m.morphTargetInfluences.length := hp2 ▸ hwf.1 p hp
  unfold getMorph setMorphMesh
  rw [hi]
  simp only [hi, Option.map_some']
  congr 1
  simp [List.getD, List.getElem?_set_self', List.getElem?_eq_getElem hlen]

/-- Writing one shape does not change the read of a different shape. -/
theorem getMorph_set_other (name name' : String) (v : ℚ) (m : Mesh)
    (hwf : WFmesh m) (hne : name' ≠ name) :
    getMorph (setMorphMesh name v m) name' = getMorph m name' := by
  unfold getMorph setMorphMesh
  cases hi : dictLookup m.morphTargetDictionary name with
  | none => rfl
  | some i =>
    simp only
    cases hj : dictLookup m.morphTargetDictionary name' with
    | none => rfl
    | some j =>
      simp only [Option.map_some']
      congr 1
      have hij : i ≠ j := dictLookup_index_ne _ hwf.2 hi hj (fun h => hne h.symm)
      simp [List.getD, List.getElem?_set_ne hij]

/-- Reading through an overlay write: the written shape becomes the max of
its previous value and the overlay value; other shapes are unchanged. -/
theorem getMorph_overlay (shape : String) (val : ℚ) (m : Mesh)
    (hwf : WFmesh m) (name : String) :
    getMorph (overlayMesh shape val m) name =
      if shape = name then (getMorph m name).map (fun w => max w val)
      else getMorph m name := by
  by_cases hsn : shape = name
  · subst hsn
    rw [if_pos rfl]
    unfold getMorph overlayMesh
    cases hi : dictLookup m.morphTargetDictionary shape with
    | none => rw [hi]; rfl
    | some i =>
      obtain ⟨p, hp, _, hp2⟩ := dictLookup_some _ _ _ hi
      have hlen : i < m.morphTargetInfluences.length := hp2 ▸ hwf.1 p hp
      rw [hi]
      simp only [hi, Option.map_some']
      congr 1
      simp [List.getD, List.getElem?_set_self', List.getElem?_eq_getElem hlen]
  · rw [if_neg hsn]
    unfold getMorph overlayMesh
    cases hi : dictLookup m.morphTargetDictionary shape with
    | none => rfl
    | some i =>
      simp only
      cases hj : dictLookup m.morphTargetDictionary name with
      | none => rfl
      | some j =>
        simp only [Option.map_some']
        congr 1
        have hij : i ≠ j := dictLookup_index_ne _ hwf.2 hi hj hsn
        simp [List.getD, List.getElem?_set_ne hij]

/-- A fold of per-mesh maps is the map of the per-mesh fold. -/
theorem foldl_map_comm {α : Type} (f : α → Mesh → Mesh) (l : List α)
    (ms : List Mesh) :
    l.foldl (fun ms a => ms.map (f a)) ms =
      ms.map (fun m => l.foldl (fun m a => f a m) m) := by
  induction l generalizing ms with
  | nil => simp
  | cons a l ih =>
    simp only [List.foldl_cons]
    rw [ih, List.map_map]
    rfl

/-- The "apply" callback acts on each mesh independently. -/
theorem applyEvent_eq_map (meshes : List Mesh) (viseme emotion : String)
    (r : ℚ) :
    applyEvent meshes viseme emotion r =
      meshes.map (applyEventMesh viseme emotion r) := by
  by_cases hv : viseme = "mouthOpen" ∨ viseme = "mouthFunnel"
  · simp only [applyEvent, setMorph, applyEmotionOverlay, if_pos hv]
    rw [foldl_map_comm, List.map_map, foldl_map_comm, List.map_map,
      List.map_map]
    refine List.map_congr_left fun m _ => ?_
    simp only [applyEventMesh, zeroMouthMesh, overlayFoldMesh, if_pos hv]
    rfl
  · simp only [applyEvent, setMorph, applyEmotionOverlay, if_neg hv]
    rw [foldl_map_comm, List.map_map, foldl_map_comm, List.map_map]
    refine List.map_congr_left fun m _ => ?_
    simp only [applyEventMesh, zeroMouthMesh, overlayFoldMesh, if_neg hv]
    rfl

theorem morphTargetDictionary_foldl_set (L : List String) (m : Mesh) :
    (L.foldl (fun m s => setMorphMesh s 0 m) m).morphTargetDictionary =
      m.morphTargetDictionary := by
  induction L generalizing m with
  | nil => rfl
  | cons s L ih =>
    simp only [List.foldl_cons]
    rw [ih, morphTargetDictionary_setMorphMesh]

theorem WF_foldl_set (L : List String) (m : Mesh) (h : WFmesh m) :
    WFmesh (L.foldl (fun m s => setMorphMesh s 0 m) m) := by
  induction L generalizing m with
  | nil => exact h
  | cons s L ih =>
    simp only [List.foldl_cons]
    exact ih _ (WF_setMorphMesh _ _ _ h)

theorem morphTargetDictionary_foldl_overlay (L : List (String × ℚ)) (m : Mesh) :
    (L.foldl (fun m sv => overlayMesh sv.1 sv.2 m) m).morphTargetDictionary =
      m.morphTargetDictionary := by
  induction L generalizing m with
  | nil => rfl
  | cons sv L ih =>
    simp only [List.foldl_cons]
    rw [ih, morphTargetDictionary_overlayMesh]

theorem WF_foldl_overlay (L : List (String × ℚ)) (m : Mesh) (h : WFmesh m) :
    WFmesh (L.foldl (fun m sv => overlayMesh sv.1 sv.2 m) m) := by
  induction L generalizing m with
  | nil => exact h
  | cons sv L ih =>
    simp only [List.foldl_cons]
    exact ih _ (WF_overlayMesh _ _ _ h)

/-- Reading through the whole overlay loop: the final weight of a shape is
obtained by folding the overlay's max-floor over its initial weight. -/
theorem getMorph_overlayFold (L : List (String × ℚ)) (m : Mesh)
    (hwf : WFmesh m) (name : String) :
    getMorph (L.foldl (fun m sv => overlayMesh sv.1 sv.2 m) m) name =
      (getMorph m name).map
        (fun w => L.foldl (fun w sv => if sv.1 = name then max w sv.2 else w) w) := by
  induction L generalizing m with
  | nil =>
    simp only [List.foldl_nil]
    cases getMorph m name <;> rfl
  | cons sv L ih =>
    simp only [List.foldl_cons]
    rw [ih _ (WF_overlayMesh _ _ _ hwf), getMorph_overlay _ _ _ hwf]
    by_cases h : sv.1 = name
    · cases hg : getMorph m name <;> simp [h]
    · cases hg : getMorph m name <;> simp [h]

/-- The overlay fold never decreases the running weight. -/
theorem foldl_overlay_ge_init (L : List (String × ℚ)) (name : String)
    (w : ℚ) :
    w ≤ L.foldl (fun w sv => if sv.1 = name then max w sv.2 else w) w := by
  induction L generalizing w with
  | nil => exact le_refl w
  | cons sv L ih =>
    simp only [List.foldl_cons]
    refine le_trans ?_ (ih _)
    by_cases h : sv.1 = name
    · rw [if_pos h]; exact le_max_left _ _
    · rw [if_neg h]

/-- Any overlay entry naming the shape is a floor for the overlay fold. -/
theorem foldl_overlay_ge_mem (L : List (String × ℚ)) (name : String)
    (w : ℚ) (sv : String × ℚ) (hmem : sv ∈ L) (hname : sv.1 = name) :
    sv.2 ≤ L.foldl (fun w x => if x.1 = name then max w x.2 else w) w := by
  induction L generalizing w with
  | nil => cases hmem
  | cons a L ih =>
    simp only [List.foldl_cons]
    rcases List.mem_cons.mp hmem with h | h
    · subst h
      rw [if_pos hname]
      exact le_trans (le_max_right _ _) (foldl_overlay_ge_init L name _)
    · exact ih _ h

/-- When no entry of the overlay names the shape, the fold is the
identity. -/
theorem foldl_overlay_no_match (L : List (String × ℚ)) (name : String)
    (w : ℚ) (h : ∀ sv ∈ L, sv.1 ≠ name) :
    L.foldl (fun w x => if x.1 = name then max w x.2 else w) w = w := by
  induction L generalizing w with
  | nil => rfl
  | cons a L ih =>
    simp only [List.foldl_cons]
    rw [if_neg (h a (List.mem_cons_self a L)), ih _ fun sv hsv => h sv (List.mem_cons_of_mem a hsv)]

/-- With distinct keys and non-negative start, the overlay fold is the max
of the start value and the (unique) overlay entry for the shape. -/
theorem foldl_overlay_eq_max (L : List (String × ℚ)) (name : String)
    (w : ℚ) (hw : 0 ≤ w) (hnd : (L.map Prod.fst).Nodup) :
    L.foldl (fun w sv => if sv.1 = name then max w sv.2 else w) w =
      max w ((L.find? (fun sv => sv.1 = name)).elim 0 Prod.snd) := by
  induction L generalizing w with
  | nil => simp [max_eq_left hw]
  | cons a L ih =>
    simp only [List.foldl_cons]
    by_cases ha : a.1 = name
    · rw [if_pos ha, List.find?_cons_of_pos _ (by simpa using ha)]
      have hnomatch : ∀ sv ∈ L, sv.1 ≠ name := by
        intro sv hsv heq
        have : a.1 ∈ L.map Prod.fst := by
          rw [ha, ← heq]
          exact List.mem_map_of_mem Prod.fst hsv
        exact (List.nodup_cons.mp hnd).1 this
      rw [foldl_overlay_no_match L name _ hnomatch]
      rfl
    · rw [if_neg ha, List.find?_cons_of_neg _ (by simpa using ha)]
      exact ih _ hw (List.nodup_cons.mp hnd).2

theorem emotionBase_keys_nodup (e : String) :
    ((emotionBase e).map Prod.fst).Nodup := by
  unfold emotionBase
  split_ifs <;> decide

theorem overlayWeight_eq_elim (e n : String) :
    overlayWeight e n =
      ((emotionBase e).find? (fun sv => sv.1 = n)).elim 0 Prod.snd := by
  unfold overlayWeight
  cases (emotionBase e).find? (fun sv => sv.1 = n) <;> rfl

theorem visemeNames_ne_jawOpen : ∀ v ∈ visemeNames, v ≠ "jawOpen" := by
  decide

/-- The only overlay entry for `jawOpen` in the `EMOTION_BASE` table is
the `surprise` one, with weight `0.4`. -/
theorem emotionBase_jawOpen (e : String) (sv : String × ℚ)
    (h : sv ∈ emotionBase e) (h1 : sv.1 = "jawOpen") : sv.2 = 2/5 := by
  unfold emotionBase at h
  split_ifs at h
  · simp only [List.mem_cons, List.mem_singleton, List.not_mem_nil, or_false] at h
    rcases h with h | h <;> (subst h; exact absurd h1 (by decide))
  · simp only [List.mem_singleton] at h
    subst h; exact absurd h1 (by decide)
  · simp only [List.mem_cons, List.mem_singleton, List.not_mem_nil, or_false] at h
    rcases h with h | h <;> (subst h; exact absurd h1 (by decide))
  · simp only [List.mem_singleton] at h
    subst h; rfl
  · cases h

/-- C6: the "apply" event's randomized intensity lies in `[0.5, 0.95]`;
the event acts per mesh; on every well-formed mesh carrying the viseme,
the viseme's weight becomes the intensity floored by the emotion overlay
(combined with `max`); when the viseme is `mouthOpen` or `mouthFunnel` the
`jawOpen` weight becomes `min(0.6, 0.9 * intensity)`; and every overlay
entry remains a floor for its shape's final weight. -/
theorem c6_apply_event (meshes : List Mesh) (viseme emotion : String) (r : ℚ)
    (hr0 : 0 ≤ r) (hr1 : r < 1) (hviseme : viseme ∈ visemeNames) :
    (1/2 ≤ intensityOf r ∧ intensityOf r ≤ 19/20) ∧
    applyEvent meshes viseme emotion r =
      meshes.map (applyEventMesh viseme emotion r) ∧
    ∀ m ∈ meshes, WFmesh m →
      ((getMorph m viseme).isSome →
        getMorph (applyEventMesh viseme emotion r m) viseme =
          some (max (intensityOf r) (overlayWeight emotion viseme))) ∧
      ((viseme = "mouthOpen" ∨ viseme = "mouthFunnel") →
        (getMorph m "jawOpen").isSome →
        getMorph (applyEventMesh viseme emotion r m) "jawOpen" =
          some (min (3/5) (intensityOf r * (9/10)))) ∧
      (∀ sv ∈ emotionBase emotion, (getMorph m sv.1).isSome →
        ∃ w, getMorph (applyEventMesh viseme emotion r m) sv.1 = some w ∧
          sv.2 ≤ w) := by
  have hint_lo : 1/2 ≤ intensityOf r := by
    unfold intensityOf; nlinarith
  have hint_hi : intensityOf r ≤ 19/20 := by
    unfold intensityOf; nlinarith
  have hint_pos : 0 ≤ intensityOf r := le_trans (by norm_num) hint_lo
  refine ⟨⟨hint_lo, hint_hi⟩, applyEvent_eq_map meshes viseme emotion r, ?_⟩
  intro m _ hwf
  have hvjaw : viseme ≠ "jawOpen" := visemeNames_ne_jawOpen viseme hviseme
  -- the three intermediate mesh states of the callback
  set m1 := zeroMouthMesh m with hm1
  set m2 := setMorphMesh viseme (intensityOf r) m1 with hm2
  set m3 := overlayFoldMesh emotion m2 with hm3
  have hwf1 : WFmesh m1 := WF_foldl_set MOUTH_SHAPES m hwf
  have hwf2 : WFmesh m2 := WF_setMorphMesh _ _ _ hwf1
  have hwf3 : WFmesh m3 := WF_foldl_overlay (emotionBase emotion) m2 hwf2
  have hdict1 : m1.morphTargetDictionary = m.morphTargetDictionary :=
    morphTargetDictionary_foldl_set MOUTH_SHAPES m
  have hdict2 : m2.morphTargetDictionary = m.morphTargetDictionary := by
    rw [hm2, morphTargetDictionary_setMorphMesh, hdict1]
  have hdict3 : m3.morphTargetDictionary = m.morphTargetDictionary := by
    rw [hm3]
    show (List.foldl (fun m sv => overlayMesh sv.1 sv.2 m) m2
      (emotionBase emotion)).morphTargetDictionary = _
    rw [morphTargetDictionary_foldl_overlay, hdict2]
  have happ : applyEventMesh viseme emotion r m =
      if viseme = "mouthOpen" ∨ viseme = "mouthFunnel" then
        setMorphMesh "jawOpen" (min (3/5) (intensityOf r * (9/10))) m3
      else m3 := rfl
  -- the viseme's weight after the overlay loop
  have hm3viseme : (getMorph m viseme).isSome →
      getMorph m3 viseme =
        some (max (intensityOf r) (overlayWeight emotion viseme)) := by
    intro hpres
    have hpres1 : (dictLookup m1.morphTargetDictionary viseme).isSome := by
      rw [hdict1, ← getMorph_isSome]; exact hpres
    have hv2 : getMorph m2 viseme = some (intensityOf r) :=
      getMorph_set_self _ _ _ hwf1 hpres1
    rw [hm3]
    show getMorph (List.foldl (fun m sv => overlayMesh sv.1 sv.2 m) m2
      (emotionBase emotion)) viseme = _
    rw [getMorph_overlayFold _ _ hwf2, hv2, Option.map_some']
    rw [foldl_overlay_eq_max _ _ _ hint_pos (emotionBase_keys_nodup emotion)]
    rw [overlayWeight_eq_elim]
  refine ⟨?_, ?_, ?_⟩
  · intro hpres
    rw [happ]
    by_cases hv : viseme = "mouthOpen" ∨ viseme = "mouthFunnel"
    · rw [if_pos hv, getMorph_set_other _ _ _ _ hwf3 hvjaw]
      exact hm3viseme hpres
    · rw [if_neg hv]
      exact hm3viseme hpres
  · intro hv hjpres
    rw [happ, if_pos hv]
    have hjpres3 : (dictLookup m3.morphTargetDictionary "jawOpen").isSome := by
      rw [hdict3, ← getMorph_isSome]; exact hjpres
    exact getMorph_set_self _ _ _ hwf3 hjpres3
  · intro sv hsv hpres
    have hpres2 : (getMorph m2 sv.1).isSome := by
      rw [getMorph_isSome, hdict2, ← getMorph_isSome]; exact hpres
    obtain ⟨w0, hw0⟩ := Option.isSome_iff_exists.mp hpres2
    have hm3sv : getMorph m3 sv.1 =
        some ((emotionBase emotion).foldl
          (fun w x => if x.1 = sv.1 then max w x.2 else w) w0) := by
      rw [hm3]
      show getMorph (List.foldl (fun m sv => overlayMesh sv.1 sv.2 m) m2
        (emotionBase emotion)) sv.1 = _
      rw [getMorph_overlayFold _ _ hwf2, hw0, Option.map_some']
    have hfloor : sv.2 ≤ (emotionBase emotion).foldl
        (fun w x => if x.1 = sv.1 then max w x.2 else w) w0 :=
      foldl_overlay_ge_mem _ _ _ sv hsv rfl
    rw [happ]
    by_cases hv : viseme = "mouthOpen" ∨ viseme = "mouthFunnel"
    · rw [if_pos hv]
      by_cases hn : sv.1 = "jawOpen"
      · have hjpres3 : (dictLookup m3.morphTargetDictionary "jawOpen").isSome := by
          rw [hdict3, ← getMorph_isSome, ← hn]; exact hpres
        refine ⟨min (3/5) (intensityOf r * (9/10)), ?_, ?_⟩
        · rw [hn]
          exact getMorph_set_self _ _ _ hwf3 hjpres3
        · have hsv2 : sv.2 = 2/5 := emotionBase_jawOpen emotion sv hsv hn
          rw [hsv2]
          refine le_min (by norm_num) ?_
          linarith [hint_lo]
      · refine ⟨_, ?_, hfloor⟩
        rw [getMorph_set_other _ _ _ _ hwf3 hn, hm3sv]
    · rw [if_neg hv]
      exact ⟨_, hm3sv, hfloor⟩

/-- A small concrete avatar mesh used as a witness input. -/
def meshW : Mesh :=
  ⟨[("mouthOpen", 0), ("jawOpen", 1), ("mouthSmile", 2)], [0, 0, 0]⟩

theorem c6_witness :
    ((0 : ℚ) ≤ 0 ∧ (0 : ℚ) < 1 ∧ "mouthOpen" ∈ visemeNames ∧
      meshW ∈ [meshW] ∧ WFmesh meshW ∧ (getMorph meshW "mouthOpen").isSome) ∧
    getMorph (applyEventMesh "mouthOpen" "joy" 0 meshW) "mouthOpen" =
      some (max (intensityOf 0) (overlayWeight "joy" "mouthOpen")) :=
  ⟨⟨le_refl 0, by norm_num, by decide, List.mem_singleton.mpr rfl, by decide,
      by decide⟩,
    (((c6_apply_event [meshW] "mouthOpen" "joy" 0 (le_refl 0) (by norm_num)
        (by decide)).2.2 meshW (List.mem_singleton.mpr rfl) (by decide)).1
      (by decide))⟩

/-!
Event-loop model of `speakText`'s timer bookkeeping.  A timer handle is a
fresh numeric id (as `window.setTimeout` returns) tagged with the
utterance that scheduled it; `tracked` is the contents of
`speakingTimersRef.current`; `pending` are the scheduled callbacks that
have neither fired nor been cleared; `fired` is the log of callbacks that
have run; `engine` is the speech engine's queued/active utterance.
-/

/-- A `setTimeout` handle tagged with its utterance. -/
structure Timer where
  id : ℕ
  utt : ℕ
deriving DecidableEq, Repr

/-- The driver's event-loop state. -/
structure DriverState where
  pending : List Timer
  tracked : List ℕ
  engine : Option ℕ
  nextId : ℕ
  fired : List Timer
  meshes : List Mesh
deriving DecidableEq, Repr

/-- `window.speechSynthesis.cancel()`. -/
def cancelEngine (s : DriverState) : DriverState := { s with engine := none }

/-- `speakingTimersRef.current.forEach((t) => window.clearTimeout(t));
speakingTimersRef.current = [];` — every tracked pending timer is
cancelled and the ref is emptied. -/
def clearTracked (s : DriverState) : DriverState :=
  { s with
    pending := s.pending.filter (fun t => decide (t.id ∉ s.tracked)),
    tracked := [] }

/-- The synchronous part of `speakText(text, emotion)`: return immediately
when the speech-synthesis facility is missing
(`if (!("speechSynthesis" in window)) return;`); otherwise cancel the
engine, clear all tracked timers, and queue the new utterance. -/
def speakSubmit (s : DriverState) (u : ℕ) (synthAvailable : Bool) :
    DriverState :=
  if synthAvailable then
    { clearTracked (cancelEngine s) with engine := some u }
  else s

/-- `utterance.onstart` for the engine's current utterance: schedule `n`
timers (the per-entry apply/release pairs and the finish timer), pushing
every handle into `speakingTimersRef`. -/
def schedule (s : DriverState) (u n : ℕ) : DriverState :=
  let newTimers := (List.range n).map fun i => Timer.mk (s.nextId + i) u
  { s with
    pending := s.pending ++ newTimers,
    tracked := s.tracked ++ newTimers.map Timer.id,
    nextId := s.nextId + n }

/-- A pending timer fires: its callback runs (mutating the meshes) and it
is removed from the pending set. -/
def fireTimer (s : DriverState) (t : Timer) (ms : List Mesh) : DriverState :=
  { s with pending := s.pending.erase t, fired := t :: s.fired, meshes := ms }

/-- `utterance.onend`: mark not speaking and clear all tracked timers. -/
def engineEnd (s : DriverState) : DriverState :=
  clearTracked { s with engine := none }

/-- One step of the single-threaded event loop. -/
inductive DriverStep : DriverState → DriverState → Prop
  | submit (s : DriverState) (u : ℕ) (avail : Bool) :
      DriverStep s (speakSubmit s u avail)
  | start (s : DriverState) (u n : ℕ) :
      s.engine = some u → DriverStep s (schedule s u n)
  | fire (s : DriverState) (t : Timer) (ms : List Mesh) :
      t ∈ s.pending → DriverStep s (fireTimer s t ms)
  | finish (s : DriverState) : DriverStep s (engineEnd s)

/-- Reachability in the event-loop model. -/
def DriverReach : DriverState → DriverState → Prop :=
  Relation.ReflTransGen DriverStep

/-- Bookkeeping invariant of the driver: every pending timer is tracked,
ids are below the allocation counter and distinct, and no pending timer
has already fired. -/
def DriverInv (s : DriverState) : Prop :=
  (∀ t ∈ s.pending, t.id ∈ s.tracked) ∧
  (∀ t ∈ s.pending, t.id < s.nextId) ∧
  (∀ t ∈ s.fired, t.id < s.nextId) ∧
  (∀ t ∈ s.pending, ∀ f ∈ s.fired, t.id ≠ f.id) ∧
  (s.pending.map Timer.id).Nodup

instance : DecidablePred DriverInv := fun s => by
  unfold DriverInv; infer_instance

/-- Clearing the tracked timers empties the pending set whenever every
pending timer is tracked. -/
theorem clearTracked_pending_nil (s : DriverState)
    (h : ∀ t ∈ s.pending, t.id ∈ s.tracked) :
    (clearTracked s).pending = [] := by
  unfold clearTracked
  simp only
  rw [List.filter_eq_nil_iff]
  intro t ht
  simp [h t ht]

/-- Timers of a pending list with distinct ids are determined by their
id. -/
theorem pending_id_inj (s : DriverState)
    (hnd : (s.pending.map Timer.id).Nodup) {p q : Timer}
    (hp : p ∈ s.pending) (hq : q ∈ s.pending) (hpq : p.id = q.id) : p = q :=
  List.inj_on_of_nodup_map hnd hp hq hpq

/-- The invariant is preserved by every event-loop step. -/
theorem driverInv_step (s s' : DriverState) (hs : DriverInv s)
    (hstep : DriverStep s s') : DriverInv s' := by
  obtain ⟨h1, h2, h3, h4, h5⟩ := hs
  cases hstep with
  | submit u avail =>
    cases avail with
    | false => exact ⟨h1, h2, h3, h4, h5⟩
    | true =>
      have hnil : (clearTracked (cancelEngine s)).pending = [] :=
        clearTracked_pending_nil (cancelEngine s) h1
      unfold speakSubmit
      simp only [if_pos]
      constructor
      · intro t ht; rw [show ({ clearTracked (cancelEngine s) with
          engine := some u } : DriverState).pending =
            (clearTracked (cancelEngine s)).pending from rfl, hnil] at ht
        cases ht
      constructor
      · intro t ht; rw [show ({ clearTracked (cancelEngine s) with
          engine := some u } : DriverState).pending =
            (clearTracked (cancelEngine s)).pending from rfl, hnil] at ht
        cases ht
      constructor
      · exact h3
      constructor
      · intro t ht; rw [show ({ clearTracked (cancelEngine s) with
          engine := some u } : DriverState).pending =
            (clearTracked (cancelEngine s)).pending from rfl, hnil] at ht
        cases ht
      · rw [show ({ clearTracked (cancelEngine s) with
          engine := some u } : DriverState).pending =
            (clearTracked (cancelEngine s)).pending from rfl, hnil]
        exact List.nodup_nil
  | start u n _ =>
    unfold schedule
    simp only
    constructor
    · intro t ht
      rcases List.mem_append.mp ht with h | h
      · exact List.mem_append.mpr (Or.inl (h1 t h))
      · exact List.mem_append.mpr (Or.inr (List.mem_map_of_mem Timer.id h))
    constructor
    · intro t ht
      rcases List.mem_append.mp ht with h | h
      · exact lt_of_lt_of_le (h2 t h) (Nat.le_add_right _ _)
      · obtain ⟨i, hi, rfl⟩ := List.mem_map.mp h
        have : i < n := List.mem_range.mp hi
        simpa using Nat.add_lt_add_left this s.nextId
    constructor
    · intro t ht
      exact lt_of_lt_of_le (h3 t ht) (Nat.le_add_right _ _)
    constructor
    · intro t ht f hf
      rcases List.mem_append.mp ht with h | h
      · exact h4 t h f hf
      · obtain ⟨i, _, rfl⟩ := List.mem_map.mp h
        have hflt : f.id < s.nextId := h3 f hf
        simp only [Timer.mk.injEq]
        omega
    · rw [List.map_append]
      refine List.Nodup.append h5 ?_ ?_
      · rw [List.map_map]
        have : (Timer.id ∘ fun i => Timer.mk (s.nextId + i) u) =
            fun i => s.nextId + i := rfl
        rw [this]
        exact (List.nodup_range n).map fun a b => by omega
      · intro x hx hy
        rw [List.map_map] at hy
        obtain ⟨t, ht, rfl⟩ := List.mem_map.mp hx
        obtain ⟨i, _, hi⟩ := List.mem_map.mp hy
        have hlt : t.id < s.nextId := h2 t ht
        have : t.id = s.nextId + i := hi.symm
        omega
  | fire t ms hmem =>
    unfold fireTimer
    have herase : ∀ p ∈ s.pending.erase t, p ∈ s.pending ∧ p ≠ t := by
      intro p hp
      have hsub : p ∈ s.pending := (s.pending.erase_sublist t).subset hp
      refine ⟨hsub, ?_⟩
      have hnd : s.pending.Nodup := h5.of_map
      intro hpt
      subst hpt
      exact (hnd.mem_erase_iff.mp hp).1 rfl
    constructor
    · intro p hp; exact h1 p (herase p hp).1
    constructor
    · intro p hp; exact h2 p (herase p hp).1
    constructor
    · intro f hf
      rcases List.mem_cons.mp hf with h | h
      · subst h; exact h2 f hmem
      · exact h3 f h
    constructor
    · intro p hp f hf
      obtain ⟨hpmem, hpt⟩ := herase p hp
      rcases List.mem_cons.mp hf with h | h
      · subst h
        intro hid
        exact hpt (pending_id_inj s h5 hpmem hmem hid)
      · exact h4 p hpmem f h
    · exact h5.sublist ((s.pending.erase_sublist t).map Timer.id)
  | finish =>
    have hnil : (clearTracked { s with engine := none }).pending = [] :=
      clearTracked_pending_nil _ h1
    unfold engineEnd
    refine ⟨?_, ?_, h3, ?_, ?_⟩ <;> rw [hnil]
    · intro t ht; cases ht
    · intro t ht; cases ht
    · intro t ht; cases ht
    · exact List.nodup_nil

/-- A cancelled timer id stays dead: it is absent from the pending set and
from the post-cancellation fired log, and the allocation counter has moved
past it, so no later step can recreate or fire it. -/
def TimerDead (bound tid : ℕ) (x : DriverState) : Prop :=
  DriverInv x ∧ bound ≤ x.nextId ∧ tid < bound ∧
  (∀ p ∈ x.pending, p.id ≠ tid) ∧ (∀ f ∈ x.fired, f.id ≠ tid)

theorem timerDead_step (bound tid : ℕ) (x y : DriverState)
    (hx : TimerDead bound tid x) (hstep : DriverStep x y) :
    TimerDead bound tid y := by
  obtain ⟨hxinv, hxnext, hxtid, hxpend, hxfired⟩ := hx
  refine ⟨driverInv_step x y hxinv hstep, ?_⟩
  cases hstep with
  | submit u avail =>
    cases avail with
    | false => exact ⟨hxnext, hxtid, hxpend, hxfired⟩
    | true =>
      have hnil : (speakSubmit x u true).pending = [] :=
        clearTracked_pending_nil (cancelEngine x) hxinv.1
      refine ⟨hxnext, hxtid, ?_, hxfired⟩
      rw [hnil]
      intro p hp; cases hp
  | start u n _ =>
    refine ⟨le_trans hxnext (Nat.le_add_right _ _), hxtid, ?_, hxfired⟩
    intro p hp
    rcases List.mem_append.mp hp with h | h
    · exact hxpend p h
    · obtain ⟨i, _, rfl⟩ := List.mem_map.mp h
      simp only
      omega
  | fire t ms hmem =>
    refine ⟨hxnext, hxtid, ?_, ?_⟩
    · intro p hp
      exact hxpend p ((x.pending.erase_sublist t).subset hp)
    · intro f hf
      rcases List.mem_cons.mp hf with h | h
      · subst h; exact hxpend f hmem
      · exact hxfired f h
  | finish =>
    refine ⟨hxnext, hxtid, ?_, hxfired⟩
    intro p hp
    exact hxpend p (List.mem_of_mem_filter hp)

theorem timerDead_reach (bound tid : ℕ) (x y : DriverState)
    (hx : TimerDead bound tid x) (hr : DriverReach x y) :
    TimerDead bound tid y := by
  induction hr with
  | refl => exact hx
  | tail _ hstep ih => exact timerDead_step bound tid _ _ ih hstep

/-- C7: submitting a new utterance `u` while timers of a prior utterance
are pending first cancels the engine's active utterance and clears every
pending timer (the state just before `u` is queued has no engine utterance
and no pending timer); the new state has utterance `u` queued and an empty
pending set; and in every state reachable from it, no previously pending
timer is pending or ever fires. -/
theorem c7_interrupt_cancels (s : DriverState) (u : ℕ) (tA : Timer)
    (hInv : DriverInv s) (htA : tA ∈ s.pending) :
    (clearTracked (cancelEngine s)).pending = [] ∧
    (clearTracked (cancelEngine s)).engine = none ∧
    (speakSubmit s u true).pending = [] ∧
    (speakSubmit s u true).engine = some u ∧
    ∀ s', DriverReach (speakSubmit s u true) s' →
      tA ∉ s'.pending ∧ tA ∉ s'.fired := by
  obtain ⟨h1, h2, h3, h4, h5⟩ := hInv
  have hnil : (clearTracked (cancelEngine s)).pending = [] :=
    clearTracked_pending_nil (cancelEngine s) h1
  have hdead0 : TimerDead s.nextId tA.id (speakSubmit s u true) := by
    refine ⟨driverInv_step s _ ⟨h1, h2, h3, h4, h5⟩
      (DriverStep.submit s u true), le_refl _, h2 tA htA, ?_, ?_⟩
    · have : (speakSubmit s u true).pending = [] := hnil
      rw [this]
      intro p hp; cases hp
    · intro f hf
      exact fun h => (h4 tA htA f hf) h.symm
  refine ⟨hnil, rfl, hnil, rfl, ?_⟩
  intro s' hr
  have hdead := timerDead_reach s.nextId tA.id _ s' hdead0 hr
  constructor
  · intro hmem
    exact hdead.2.2.2.1 tA hmem rfl
  · intro hmem
    exact hdead.2.2.2.2 tA hmem rfl

/-- A concrete driver state with one pending timer of utterance 0. -/
def driverW : DriverState :=
  ⟨[⟨0, 0⟩], [0], some 0, 1, [], []⟩

theorem c7_witness :
    (DriverInv driverW ∧ (⟨0, 0⟩ : Timer) ∈ driverW.pending) ∧
    ((speakSubmit driverW 1 true).pending = [] ∧
     (speakSubmit driverW 1 true).engine = some 1 ∧
     (⟨0, 0⟩ : Timer) ∉ (speakSubmit driverW 1 true).pending ∧
     (⟨0, 0⟩ : Timer) ∉ (speakSubmit driverW 1 true).fired) :=
  ⟨⟨by decide, by decide⟩, by
    obtain ⟨_, _, hp, he, hall⟩ :=
      c7_interrupt_cancels driverW 1 ⟨0, 0⟩ (by decide) (by decide)
    obtain ⟨hnp, hnf⟩ := hall _ Relation.ReflTransGen.refl
    exact ⟨hp, he, hnp, hnf⟩⟩

/-- C8: when the speech-synthesis facility is unavailable, `speakText`
returns without doing anything: it is a total function (cannot throw), and
the submission leaves the whole driver state — pending timers, tracked
handles, engine, renderable meshes — unchanged, so no timer is scheduled,
no mouth shape is written, and the independent idle motion is
unaffected. -/
theorem c8_unavailable_noop (s : DriverState) (u : ℕ) :
    speakSubmit s u false = s ∧
    (speakSubmit s u false).pending = s.pending ∧
    (speakSubmit s u false).tracked = s.tracked ∧
    (speakSubmit s u false).engine = s.engine ∧
    (speakSubmit s u false).meshes = s.meshes :=
  ⟨rfl, rfl, rfl, rfl, rfl⟩

/-!
Avatar URL utilities (`avatarUtils.ts`).  The validation regex
`/^https:\/\/models\.readyplayer\.me\/[a-f0-9]{24}\.(glb|fbx)(\?.+)?$/i`
and the extraction regex `/\/([a-f0-9]{24})\./i` are embedded as
deterministic scanners: the patterns have no backtracking ambiguity (the
hex run has an exact length, the alternatives differ in their first
character), so a left-to-right scan computes exactly the regex result.
-/

/-- The class `[a-f0-9]` under the `/i` flag. -/
def isHexCI (c : Char) : Bool :=
  c.isDigit || ('a' ≤ c && c ≤ 'f') || ('A' ≤ c && c ≤ 'F')

/-- JavaScript line terminators, which `.` does not match. -/
def isLineTerm (c : Char) : Bool :=
  c = '\n' || c = '\r' || c = ' ' || c = ' '

/-- Consume a literal pattern case-insensitively, returning the rest of
the input. -/
def matchCI : List Char → List Char → Option (List Char)
  | [], cs => some cs
  | _ :: _, [] => none
  | p :: ps, c :: cs => if c.toLower = p.toLower then matchCI ps cs else none

/-- Consume exactly `n` hex characters (`[a-f0-9]{n}` with `/i`),
returning them and the rest of the input. -/
def grabHex : ℕ → List Char → Option (List Char × List Char)
  | 0, cs => some ([], cs)
  | _ + 1, [] => none
  | n + 1, c :: cs =>
    if isHexCI c then (grabHex n cs).map (fun pr => (c :: pr.1, pr.2)) else none

/-- The tail pattern `(\?.+)?$`: either nothing, or `?` followed by at
least one character, none of them a line terminator. -/
def queryOk : List Char → Bool
  | [] => true
  | '?' :: q => !q.isEmpty && q.all (fun c => !isLineTerm c)
  | _ => false

/-- The literal host part of the avatar URL pattern. -/
def hostChars : List Char := "https://models.readyplayer.me/".data

/-- `isValidAvatarUrl` on the character list: the anchored pattern
`^https://models.readyplayer.me/[a-f0-9]{24}\.(glb|fbx)(\?.+)?$`, flag
`i`. -/
def isValidAvatarUrlChars (cs : List Char) : Bool :=
  match matchCI hostChars cs with
  | none => false
  | some r1 =>
    match grabHex 24 r1 with
    | none => false
    | some (_, r2) =>
      match r2 with
      | '.' :: r3 =>
        (match matchCI "glb".data r3 with
         | some r4 => queryOk r4
         | none =>
           match matchCI "fbx".data r3 with
           | some r4 => queryOk r4
           | none => false)
      | _ => false

/-- `isValidAvatarUrl(url)`. -/
def isValidAvatarUrl (url : String) : Bool := isValidAvatarUrlChars url.data

/-- `url.match(/\/([a-f0-9]{24})\./i)`: the leftmost position at which a
slash is followed by exactly 24 hex characters and a dot; returns the
captured hex run. -/
def scanId : List Char → Option (List Char)
  | [] => none
  | c :: rest =>
    if c = '/' then
      match grabHex 24 rest with
      | some (idc, '.' :: _) => some idc
      | _ => scanId rest
    else scanId rest

/-- `extractAvatarId(url)`: `null` unless the URL is valid, else the first
capture of the extraction regex. -/
def extractAvatarId (url : String) : Option String :=
  if isValidAvatarUrl url then (scanId url.data).map (fun l => ⟨l⟩)
  else none

/-- `AvatarConfig.quality`. -/
inductive AvatarQuality | low | medium | high
deriving DecidableEq, Repr

/-- `AvatarConfig.format`. -/
inductive AvatarFormat | glb | fbx
deriving DecidableEq, Repr

/-- `AvatarConfig.pose`. -/
inductive AvatarPose | A | T
deriving DecidableEq, Repr

/-- `AvatarConfig.textureAtlas`. -/
inductive AvatarTextureAtlas | atlasNone | atlas256 | atlas512 | atlas1024
deriving DecidableEq, Repr

def qualityStr : AvatarQuality → String
  | .low => "low"
  | .medium => "medium"
  | .high => "high"

def formatStr : AvatarFormat → String
  | .glb => "glb"
  | .fbx => "fbx"

def poseStr : AvatarPose → String
  | .A => "A"
  | .T => "T"

def textureAtlasStr : AvatarTextureAtlas → String
  | .atlasNone => "none"
  | .atlas256 => "256"
  | .atlas512 => "512"
  | .atlas1024 => "1024"

/-- `AvatarConfig` with the defaults of `buildAvatarUrl`'s destructuring
(an omitted field behaves exactly like its default value). -/
structure AvatarConfig where
  quality : AvatarQuality := .medium
  format : AvatarFormat := .glb
  pose : AvatarPose := .A
  animations : Bool := true
  morphTargets : Bool := true
  useHands : Bool := false
  useDraco : Bool := false
  textureAtlas : AvatarTextureAtlas := .atlas512
deriving DecidableEq, Repr

/-- The `URLSearchParams` built by `buildAvatarUrl`, as the ordered list
of key/value pairs that are `set` (all keys are distinct, so insertion
order is kept). -/
def buildParams (c : AvatarConfig) : List (String × String) :=
  (if c.quality ≠ .medium then [("quality", qualityStr c.quality)] else []) ++
  (if c.pose ≠ .A then [("pose", poseStr c.pose)] else []) ++
  (if c.animations = false then [("animations", "false")] else []) ++
  (if c.morphTargets = false then [("morphTargets", "false")] else []) ++
  (if c.useHands = true then [("useHands", "true")] else []) ++
  (if c.useDraco = true then [("useDraco", "true")] else []) ++
  (if c.textureAtlas ≠ .atlasNone then
    [("textureAtlas", textureAtlasStr c.textureAtlas)] else [])

/-- `params.toString()`: `k=v` pairs joined with `&`.  The
form-urlencoding step is the identity on every key and value above (all
are unreserved ASCII). -/
def joinParams : List (String × String) → String
  | [] => ""
  | [kv] => kv.1 ++ "=" ++ kv.2
  | kv :: rest => kv.1 ++ "=" ++ kv.2 ++ "&" ++ joinParams rest

/-- `buildAvatarUrl(avatarId, config)`. -/
def buildAvatarUrl (avatarId : String) (config : AvatarConfig) : String :=
  let url := "https://models.readyplayer.me/" ++ avatarId ++ "." ++
    formatStr config.format
  let paramString := joinParams (buildParams config)
  if paramString = "" then url else url ++ "?" ++ paramString

theorem matchCI_append_self (p cs : List Char) :
    matchCI p (p ++ cs) = some cs := by
  induction p with
  | nil => rfl
  | cons c p ih => simp [matchCI, ih]

theorem grabHex_exact (l rest : List Char)
    (hhex : ∀ c ∈ l, isHexCI c = true) :
    grabHex l.length (l ++ rest) = some (l, rest) := by
  induction l with
  | nil => rfl
  | cons c l ih =>
    show grabHex (l.length + 1) (c :: (l ++ rest)) = _
    rw [grabHex]
    rw [if_pos (hhex c (List.mem_cons_self c l))]
    rw [ih fun d hd => hhex d (List.mem_cons_of_mem c hd)]
    rfl

theorem grabHex24_cons_nothex (c : Char) (l : List Char)
    (h : isHexCI c = false) : grabHex 24 (c :: l) = none := by
  show grabHex (23 + 1) (c :: l) = none
  rw [grabHex, if_neg (by simp [h])]

theorem scanId_cons_ne (c : Char) (l : List Char) (h : ¬c = '/') :
    scanId (c :: l) = scanId l := by
  rw [scanId, if_neg h]

theorem scanId_cons_slash_nothex (d : Char) (l : List Char)
    (h : isHexCI d = false) : scanId ('/' :: d :: l) = scanId (d :: l) := by
  rw [scanId, if_pos rfl, grabHex24_cons_nothex d l h]

/-- A character run in which the extraction pattern cannot start: every
slash is followed (inside the run) by a non-hex character. -/
inductive NoMatchRun : List Char → Prop
  | nil : NoMatchRun []
  | consNe (c : Char) (l : List Char) : ¬c = '/' → NoMatchRun l →
      NoMatchRun (c :: l)
  | consSlash (d : Char) (l : List Char) : isHexCI d = false →
      NoMatchRun (d :: l) → NoMatchRun ('/' :: d :: l)

theorem scanId_append (p : List Char) (h : NoMatchRun p) :
    ∀ l, scanId (p ++ l) = scanId l := by
  induction h with
  | nil => intro l; rfl
  | consNe c p' hc _ ih =>
    intro l
    rw [List.cons_append, scanId_cons_ne c _ hc, ih]
  | consSlash d p' hd _ ih =>
    intro l
    rw [List.cons_append, List.cons_append,
      scanId_cons_slash_nothex d _ hd, ← List.cons_append, ih]

/-- The host part up to (not including) its final slash contains no
position where the extraction pattern could match. -/
theorem hostNoMatch : NoMatchRun "https://models.readyplayer.me".data := by
  repeat first
    | exact NoMatchRun.nil
    | refine NoMatchRun.consSlash _ _ (by decide) ?_
    | refine NoMatchRun.consNe _ _ (by decide) ?_

theorem scanId_slash_hit (idc rest : List Char) (hlen : idc.length = 24)
    (hhex : ∀ c ∈ idc, isHexCI c = true) :
    scanId ('/' :: (idc ++ '.' :: rest)) = some idc := by
  have hg : grabHex 24 (idc ++ '.' :: rest) = some (idc, '.' :: rest) := by
    rw [← hlen]
    exact grabHex_exact idc _ hhex
  rw [scanId, if_pos rfl, hg]
  rfl

theorem mem_if_singleton {α : Type} {b : Prop} [Decidable b] {p x : α}
    (h : x ∈ if b then [p] else []) : x = p := by
  split at h
  · simpa using h
  · cases h

/-- Every parameter piece `k=v` that `buildAvatarUrl` can produce consists
of non-line-terminator characters. -/
theorem buildParams_pieces (c : AvatarConfig) (kv : String × String)
    (h : kv ∈ buildParams c) :
    ((kv.1 ++ "=" ++ kv.2).data.all fun ch => !isLineTerm ch) = true := by
  obtain ⟨q, fo, po, an, mo, uh, ud, ta⟩ := c
  unfold buildParams at h
  simp only at h
  rcases List.mem_append.mp h with h | h
  · rcases List.mem_append.mp h with h | h
    · rcases List.mem_append.mp h with h | h
      · rcases List.mem_append.mp h with h | h
        · rcases List.mem_append.mp h with h | h
          · rcases List.mem_append.mp h with h | h
            · rw [mem_if_singleton h]
              cases q <;> decide
            · rw [mem_if_singleton h]
              cases po <;> decide
          · rw [mem_if_singleton h]; decide
        · rw [mem_if_singleton h]; decide
      · rw [mem_if_singleton h]; decide
    · rw [mem_if_singleton h]; decide
  · rw [mem_if_singleton h]
    cases ta <;> decide

/-- Joining good pieces with `&` yields a query with no line
terminator. -/
theorem joinParams_chars (ps : List (String × String))
    (h : ∀ kv ∈ ps,
      ((kv.1 ++ "=" ++ kv.2).data.all fun ch => !isLineTerm ch) = true) :
    ((joinParams ps).data.all fun ch => !isLineTerm ch) = true := by
  induction ps with
  | nil => rfl
  | cons kv rest ih =>
    cases rest with
    | nil => exact h kv (List.mem_singleton.mpr rfl)
    | cons kv2 rest2 =>
      show ((kv.1 ++ "=" ++ kv.2 ++ "&" ++
        joinParams (kv2 :: rest2)).data.all fun ch => !isLineTerm ch) = true
      have h1 := h kv (List.mem_cons_self _ _)
      have h2 := ih fun kv' hk => h kv' (List.mem_cons_of_mem _ hk)
      simp only [String.data_append, List.all_append] at h1 h2 ⊢
      simp_all
      decide

theorem string_eq_empty_of_data_nil (s : String) (h : s.data = []) :
    s = "" := by
  cases s; simp_all

/-- A URL of the shape produced by `buildAvatarUrl` passes the validation
pattern. -/
theorem validChars_of (idc fmtc q : List Char) (hlen : idc.length = 24)
    (hhex : ∀ c ∈ idc, isHexCI c = true)
    (hfmt : fmtc = "glb".data ∨ fmtc = "fbx".data)
    (hq : queryOk q = true) :
    isValidAvatarUrlChars (hostChars ++ (idc ++ '.' :: (fmtc ++ q))) = true := by
  have hg : grabHex 24 (idc ++ '.' :: (fmtc ++ q)) =
      some (idc, '.' :: (fmtc ++ q)) := by
    rw [← hlen]
    exact grabHex_exact _ _ hhex
  have hgf : ∀ q' : List Char, matchCI "glb".data ('f' :: q') = none := by
    intro q'
    rw [show ("glb".data : List Char) = 'g' :: 'l' :: 'b' :: [] from rfl,
      matchCI, if_neg (by decide)]
  rcases hfmt with h | h
  · subst h
    simp only [isValidAvatarUrlChars, matchCI_append_self, hg]
    exact hq
  · subst h
    have hm0 : matchCI "glb".data ("fbx".data ++ q) = none :=
      hgf ('b' :: 'x' :: [] ++ q)
    have hm1 : matchCI "fbx".data ("fbx".data ++ q) = some q :=
      matchCI_append_self "fbx".data q
    simp only [isValidAvatarUrlChars, matchCI_append_self, hg, hm0, hm1]
    exact hq

/-- The extraction scan finds exactly the 24-hex id of a URL of the built
shape. -/
theorem scanId_of (idc rest : List Char) (hlen : idc.length = 24)
    (hhex : ∀ c ∈ idc, isHexCI c = true) :
    scanId (hostChars ++ (idc ++ '.' :: rest)) = some idc := by
  have hsplit : hostChars = "https://models.readyplayer.me".data ++ ['/'] := by
    decide
  rw [hsplit, List.append_assoc, scanId_append _ hostNoMatch]
  exact scanId_slash_hit idc rest hlen hhex

/-- C10: for every 24-hex-character avatar id and every configuration, the
built URL passes `isValidAvatarUrl`, and `extractAvatarId` recovers the id
unchanged. -/
theorem c10_roundtrip (avatarId : String) (hlen : avatarId.length = 24)
    (hhex : ∀ c ∈ avatarId.data, isHexCI c = true) (config : AvatarConfig) :
    isValidAvatarUrl (buildAvatarUrl avatarId config) = true ∧
    extractAvatarId (buildAvatarUrl avatarId config) = some avatarId := by
  have hlen' : avatarId.data.length = 24 := hlen
  have hurl : (buildAvatarUrl avatarId config).data =
      hostChars ++ (avatarId.data ++ '.' ::
        ((formatStr config.format).data ++
          (if joinParams (buildParams config) = "" then []
           else '?' :: (joinParams (buildParams config)).data))) := by
    have hdot : ("." : String).data = ['.'] := rfl
    have hquestion : ("?" : String).data = ['?'] := rfl
    by_cases h : joinParams (buildParams config) = ""
    · simp only [buildAvatarUrl, h, if_pos rfl, if_true]
      simp [String.data_append, hostChars, hdot, List.append_assoc]
    · simp only [buildAvatarUrl, if_neg h]
      simp [String.data_append, hostChars, hdot, hquestion,
        List.append_assoc]
  have hq : queryOk (if joinParams (buildParams config) = "" then []
      else '?' :: (joinParams (buildParams config)).data) = true := by
    by_cases h : joinParams (buildParams config) = ""
    · simp [h, queryOk]
    · simp only [if_neg h]
      have hne : (joinParams (buildParams config)).data ≠ [] := by
        intro hd
        exact h (string_eq_empty_of_data_nil _ hd)
      have hall := joinParams_chars (buildParams config)
        (buildParams_pieces config)
      show (!(joinParams (buildParams config)).data.isEmpty &&
        (joinParams (buildParams config)).data.all
          fun c => !isLineTerm c) = true
      rw [hall]
      simp [List.isEmpty_iff, hne]
  have hfmt : (formatStr config.format).data = "glb".data ∨
      (formatStr config.format).data = "fbx".data := by
    cases config.format
    · exact Or.inl rfl
    · exact Or.inr rfl
  have hvalid : isValidAvatarUrl (buildAvatarUrl avatarId config) = true := by
    show isValidAvatarUrlChars (buildAvatarUrl avatarId config).data = true
    rw [hurl]
    exact validChars_of _ _ _ hlen' hhex hfmt hq
  refine ⟨hvalid, ?_⟩
  unfold extractAvatarId
  rw [hvalid, if_pos rfl, hurl, scanId_of _ _ hlen' hhex, Option.map_some']

theorem c10_witness :
    (("64e3055495439dfcf3f0b665" : String).length = 24 ∧
     ∀ c ∈ ("64e3055495439dfcf3f0b665" : String).data, isHexCI c = true) ∧
    (isValidAvatarUrl (buildAvatarUrl "64e3055495439dfcf3f0b665" {}) = true ∧
     extractAvatarId (buildAvatarUrl "64e3055495439dfcf3f0b665" {}) =
       some "64e3055495439dfcf3f0b665") :=
  ⟨⟨by decide, by decide⟩,
    c10_roundtrip "64e3055495439dfcf3f0b665" (by decide) (by decide) {}⟩
